import Mathlib

/-!
# Verification of the FaceAttendance backend (src/backend/main.py)

Shallow embedding of the embedding store, nearest-match decision engine and
audit log of the FaceAttendance backend.  Python floats are modelled as real
numbers; the per-user pickle files under `db/` are modelled as an association
list from user names to lists of encodings; the CSV log file is modelled as a
list of `LogEntry` plus an explicit serializer mirroring the file writes.

The image pipeline (decoding, CLAHE preprocessing, face detection/encoding) is
an external collaborator: endpoint models take the list of extracted encodings
as an input, exactly at the boundary where `main.py` receives it from
`face_recognition`.
-/

namespace FaceAttendance

/-- A face embedding: a vector of floats (`np.ndarray` of `float64`),
modelled as a list of reals. -/
abbrev Embedding := List ℝ

/-- The on-disk store `db/`: one entry per user name (one `.pickle` file per
user, keyed by file name), holding that user's list of reference encodings. -/
abbrev Store := List (String × List Embedding)

/-- `list_users()`: the user names present in the store
(`os.listdir(DB_DIR)` filtered to `.pickle`, extensions stripped). -/
def list_users (st : Store) : List String := st.map Prod.fst

/-- `load_user_encodings(name)`: the stored encodings of `name`, or `[]`
when no record exists. -/
def load_user_encodings (st : Store) (name : String) : List Embedding :=
  match st.lookup name with
  | some encs => encs
  | none => []

/-- `save_user_encodings(name, encs)`: (over)write `name`'s record with
`encs` (file overwrite when the file exists, creation otherwise). -/
def save_user_encodings (st : Store) (name : String) (encs : List Embedding) : Store :=
  if (st.lookup name).isSome then
    st.map (fun p => if p.1 = name then (name, encs) else p)
  else
    st ++ [(name, encs)]

/-- `np.linalg.norm` of the difference of two equal-length vectors: the
Euclidean (L2) distance.  Modelled from the spec: `face_recognition.face_distance`
is external library code, specified as "the Euclidean distance (L2 norm of the
vector difference)". -/
noncomputable def euclid (a b : Embedding) : ℝ :=
  Real.sqrt ((List.zipWith (fun x y => (x - y)^2) a b).sum)

/-- `face_recognition.face_distance(refs, enc)`: the list of Euclidean
distances from `enc` to every reference in `refs`. -/
noncomputable def face_distance (refs : List Embedding) (enc : Embedding) : List ℝ :=
  refs.map (fun r => euclid r enc)

/-- `np.min` of a list of floats (callers only apply it to non-empty lists;
`numpy` raises on an empty one, the `0` default is never reached). -/
noncomputable def npMin : List ℝ → ℝ
  | [] => 0
  | x :: xs => xs.foldl min x

/-- The body of the `for name in user_names` loop shared verbatim by
`best_match` and `_best_user_for_embedding`: skip users without stored
encodings, otherwise compare the minimum distance to the running best and
update on a strictly smaller distance. -/
noncomputable def bmStep (st : Store) (enc : Embedding) (acc : String × ℝ) (name : String) :
    String × ℝ :=
  let refs := load_user_encodings st name
  if refs = [] then acc
  else
    let d := npMin (face_distance refs enc)
    if d < acc.2 then (name, d) else acc

/-- `best_match(enc, user_names, tolerance)`: returns
`(name, matched?, distance)`; the running best starts at
`("unknown_person", 1.0)` and `matched = (best_dist <= tolerance)`. -/
noncomputable def best_match (st : Store) (enc : Embedding) (user_names : List String)
    (tolerance : ℝ) : String × Bool × ℝ :=
  let best := user_names.foldl (bmStep st enc) ("unknown_person", (1 : ℝ))
  (best.1, if best.2 ≤ tolerance then true else false, best.2)

/-- `_best_user_for_embedding(enc_vec, user_names, tol)`: identical loop to
`best_match`, used by the JSON mode of `/search`. -/
noncomputable def _best_user_for_embedding (st : Store) (enc_vec : Embedding)
    (user_names : List String) (tol : ℝ) : String × Bool × ℝ :=
  let best := user_names.foldl (bmStep st enc_vec) ("unknown_person", (1 : ℝ))
  (best.1, if best.2 ≤ tol then true else false, best.2)

/-- The per-identity minimum distance used by the matching loop for one
candidate user. -/
noncomputable def userDist (st : Store) (enc : Embedding) (n : String) : ℝ :=
  npMin (face_distance (load_user_encodings st n) enc)

/-- Written from the spec's words, for comparison with `best_match`: "the
global minimum over all identities and all their references of the Euclidean
distance from the query embedding" — the minimum over the candidate
identities of the per-identity minimum distance (`1` for an empty candidate
list, which the spec excludes). -/
noncomputable def globalMinDist (st : Store) (enc : Embedding) (names : List String) : ℝ :=
  match names.map (userDist st enc) with
  | [] => 1
  | d :: ds => ds.foldl min d

/-- One line of `logs/attendance.csv` as written by `save_log`:
`{timestamp},{event},{user},{int(match)},{extra}`. -/
structure LogEntry where
  ts : String
  event : String
  user : String
  matched : Bool
  extra : String
deriving DecidableEq, Repr

/-- Python's default `str.strip` whitespace set. -/
def isSpaceChar (c : Char) : Bool :=
  (c == ' ') || (c == '\t') || (c == '\n') || (c == '\r') || (c == '\x0b') || (c == '\x0c')

/-- Python `str.strip()`: drop leading and trailing whitespace. -/
def pyStrip (s : String) : String :=
  String.mk (((s.data.dropWhile isSpaceChar).reverse.dropWhile isSpaceChar).reverse)

/-- Response of `POST /enroll`: either a 400 `JSONResponse` with an error
message, or the success payload (userName, fullName, message). -/
inductive EnrollOut where
  | badRequest (error : String)
  | ok (userName : String) (fullName : String) (message : String)
deriving DecidableEq, Repr

/-- `POST /enroll` after the external image pipeline: `encs` is the list of
face encodings `get_face_encodings_bgr` extracted from the uploaded image,
`ts` the `now_str()` timestamp.  Returns the HTTP response, the updated store
and the updated log. -/
def enroll (st : Store) (log : List LogEntry) (ts : String)
    (userName : String) (encs : List Embedding) (fullName : Option String) :
    EnrollOut × Store × List LogEntry :=
  let name := pyStrip userName
  if name = "" then
    (.badRequest "Username is empty.", st, log)
  else
    match encs with
    | [] =>
      (.badRequest "No face found in the image.", st,
       log ++ [⟨ts, "enroll_fail", name, false, "no_face"⟩])
    | [enc] =>
      let updated := load_user_encodings st name ++ [enc]
      (.ok name (fullName.getD name)
         ("Registered/updated " ++ name ++ ". Total samples: " ++ toString updated.length ++ "."),
       save_user_encodings st name updated,
       log ++ [⟨ts, "enroll", name, true, "encodings=" ++ toString updated.length⟩])
    | _ :: _ :: _ =>
      (.badRequest "Multiple faces found. Please use a single-face image.", st,
       log ++ [⟨ts, "enroll_fail", name, false, "multiple_faces"⟩])

/-- Response of `POST /search`: an `HTTPException` (status, detail) or the
JSON payload.  `patient` is `none` for `"patient": None` and `some n` for
`"patient": {"userName": n}`; `distance` is `none` both for `"distance": None`
and for a response without a distance key. -/
inductive SearchOut where
  | httpError (status : Nat) (detail : String)
  | found (matchFlag : Bool) (patient : Option String) (distance : Option ℝ) (message : String)

/-- The `match` field of a `/search` response (`false` for an HTTP error). -/
def SearchOut.isMatch : SearchOut → Bool
  | .httpError _ _ => false
  | .found b _ _ _ => b

/-- JSON mode of `POST /search` (`{"embedding": ..., "threshold": ...}`):
`threshold?` is the optional caller threshold, a missing field taking the
`SearchIn` pydantic default `0.6`; `fmt3` models the Python `f"{d:.3f}"`
decimal rendering (its exact output is irrelevant to every claim). -/
noncomputable def searchJson (st : Store) (log : List LogEntry) (ts : String)
    (fmt3 : ℝ → String) (embedding : List ℝ) (threshold? : Option ℝ) :
    SearchOut × List LogEntry :=
  let threshold := threshold?.getD 0.6
  if embedding.length = 0 ∨ embedding.length ≠ 128 then
    (.httpError 400 "Invalid embedding", log)
  else
    let users := list_users st
    if users = [] then
      (.found false none none "No users enrolled in the system.",
       log ++ [⟨ts, "search_fail", "unknown_person", false, "no_users_in_db"⟩])
    else
      let r := _best_user_for_embedding st embedding users threshold
      if r.2.1 then
        (.found true (some r.1) (some r.2.2) ("Welcome back " ++ r.1 ++ "!"),
         log ++ [⟨ts, "search", r.1, true, "dist=" ++ fmt3 r.2.2⟩])
      else
        (.found false (some "unknown_person") (some r.2.2) "Unknown user.",
         log ++ [⟨ts, "search_fail", "unknown_person", false,
                  "best=" ++ r.1 ++ ", dist=" ++ fmt3 r.2.2⟩])

/-- multipart/form-data mode of `POST /search` after the external image
pipeline: `encs` are the extracted encodings; `largestFaceEnc` models, from
the spec, the collaborator's re-extraction for the largest detected face used
when several faces are present.  The tolerance is the hard-coded `0.6` of the
`best_match(enc, users, tolerance=0.6)` call. -/
noncomputable def searchMultipart (st : Store) (log : List LogEntry) (ts : String)
    (fmt3 : ℝ → String) (encs : List Embedding) (largestFaceEnc : Embedding) :
    SearchOut × List LogEntry :=
  match encs with
  | [] =>
    (.found false none none "No face found.",
     log ++ [⟨ts, "search_fail", "unknown_person", false, "no_face"⟩])
  | e :: rest =>
    let enc := if rest = [] then e else largestFaceEnc
    let users := list_users st
    if users = [] then
      (.found false none none "No users enrolled in the system.",
       log ++ [⟨ts, "search_fail", "unknown_person", false, "no_users_in_db"⟩])
    else
      let r := best_match st enc users 0.6
      if r.2.1 then
        (.found true (some r.1) (some r.2.2) ("Welcome back " ++ r.1 ++ "!"),
         log ++ [⟨ts, "search", r.1, true, "dist=" ++ fmt3 r.2.2⟩])
      else
        (.found false (some "unknown_person") (some r.2.2) "Unknown user.",
         log ++ [⟨ts, "search_fail", "unknown_person", false,
                  "best=" ++ r.1 ++ ", dist=" ++ fmt3 r.2.2⟩])

/-- The CSV header row written when `attendance.csv` is created. -/
def csvHeader : String := "timestamp,event,user,match,extra"

/-- The line `save_log` appends for one entry:
`f"\x7bnow_str()\x7d,\x7bevent\x7d,\x7buser\x7d,\x7bint(match)\x7d,\x7bextra\x7d"`. -/
def csvLine (e : LogEntry) : String :=
  e.ts ++ "," ++ e.event ++ "," ++ e.user ++ "," ++
    (if e.matched then "1" else "0") ++ "," ++ e.extra

/-- The full content of `attendance.csv` after the recorded appends: header
line first, then one line per entry, each terminated by a newline (the file is
what `GET /get_attendance_logs` zips and returns). -/
def csvFile (log : List LogEntry) : String :=
  log.foldl (fun acc e => acc ++ csvLine e ++ "\n") (csvHeader ++ "\n")

/-- `splitAux c l = (g, gs)`: `g` is the chunk before the first `c` in `l`,
`gs` the remaining chunks (helper for `splitOnChar`). -/
def splitAux (c : Char) : List Char → List Char × List (List Char)
  | [] => ([], [])
  | x :: xs =>
    if x = c then ([], (splitAux c xs).1 :: (splitAux c xs).2)
    else (x :: (splitAux c xs).1, (splitAux c xs).2)

/-- Split a character list at every occurrence of `c` (the separator is
dropped; always at least one chunk, like Python `str.split`). -/
def splitOnChar (c : Char) (l : List Char) : List (List Char) :=
  (splitAux c l).1 :: (splitAux c l).2

/-- Parse the `int(match)` column back to a boolean. -/
def parseMatch : List Char → Option Bool
  | ['1'] => some true
  | ['0'] => some false
  | _ => none

/-- Modelled from the spec: re-parse one data row of the exported
comma-separated table into an Audit Entry (the spec's "re-parsing the
returned table"; `main.py` itself has no reader for the log). -/
def parseLine (line : List Char) : Option LogEntry :=
  match splitOnChar ',' line with
  | [ts, ev, us, m, ex] =>
    match parseMatch m with
    | some b => some ⟨String.mk ts, String.mk ev, String.mk us, b, String.mk ex⟩
    | none => none
  | _ => none

/-- Modelled from the spec: parse every data row, failing if any row is
malformed. -/
def parseLines : List (List Char) → Option (List LogEntry)
  | [] => some []
  | l :: ls =>
    match parseLine l, parseLines ls with
    | some e, some es => some (e :: es)
    | _, _ => none

/-- Modelled from the spec: re-parse an exported log file — the first row
must be the header, every data row is newline-terminated (so the final chunk
after the last newline is empty), and each data row parses via `parseLine`. -/
def parseCsv (content : String) : Option (List LogEntry) :=
  let rows := splitOnChar '\n' content.data
  if rows.head? = some csvHeader.data ∧ rows.getLast? = some [] then
    parseLines ((rows.drop 1).dropLast)
  else none

/-- Field sanitation precondition for the round-trip: no separator characters
inside a field. -/
def fieldOk (s : String) : Prop := ',' ∉ s.data ∧ '\n' ∉ s.data

/-- All four free-form fields of an entry are separator-free. -/
def entryOk (e : LogEntry) : Prop :=
  fieldOk e.ts ∧ fieldOk e.event ∧ fieldOk e.user ∧ fieldOk e.extra

instance : DecidablePred fieldOk := fun s => by unfold fieldOk; infer_instance

instance : DecidablePred entryOk := fun e => by unfold entryOk; infer_instance

/-! ## Helper lemmas about the matching fold -/

lemma foldl_min_le_init : ∀ (l : List ℝ) (a : ℝ), l.foldl min a ≤ a := by
  intro l
  induction l with
  | nil => intro a; exact le_refl a
  | cons x xs ih => intro a; exact le_trans (ih (min a x)) (min_le_left a x)

lemma foldl_min_le_mem : ∀ (l : List ℝ) (a x : ℝ), x ∈ l → l.foldl min a ≤ x := by
  intro l
  induction l with
  | nil => intro a x hx; cases hx
  | cons y ys ih =>
    intro a x hx
    rcases List.mem_cons.mp hx with h | h
    · subst h; exact le_trans (foldl_min_le_init ys (min a x)) (min_le_right a x)
    · exact ih (min a y) x h

lemma foldl_min_min : ∀ (l : List ℝ) (a b : ℝ), l.foldl min (min a b) = min a (l.foldl min b) := by
  intro l
  induction l with
  | nil => intro a b; rfl
  | cons x xs ih =>
    intro a b
    rw [List.foldl_cons, List.foldl_cons, min_assoc, ih]

lemma foldl_fixed {α β : Type} (f : α → β → α) (a : α) :
    ∀ (l : List β), (∀ x ∈ l, f a x = a) → l.foldl f a = a := by
  intro l
  induction l with
  | nil => intro _; rfl
  | cons x xs ih =>
    intro h
    rw [List.foldl_cons, h x (List.mem_cons_self x xs)]
    exact ih (fun y hy => h y (List.mem_cons_of_mem x hy))

lemma bmStep_of_ne (st : Store) (enc : Embedding) (acc : String × ℝ) (name : String)
    (h : load_user_encodings st name ≠ []) :
    bmStep st enc acc name =
      if userDist st enc name < acc.2 then (name, userDist st enc name) else acc := by
  simp [bmStep, userDist, h]

lemma bmStep_snd (st : Store) (enc : Embedding) (acc : String × ℝ) (name : String)
    (h : load_user_encodings st name ≠ []) :
    (bmStep st enc acc name).2 = min acc.2 (userDist st enc name) := by
  rw [bmStep_of_ne st enc acc name h]
  rcases lt_or_ge (userDist st enc name) acc.2 with hlt | hge
  · rw [if_pos hlt, min_eq_right hlt.le]
  · rw [if_neg (not_lt.mpr hge), min_eq_left hge]

lemma scan_snd (st : Store) (enc : Embedding) :
    ∀ (names : List String) (acc : String × ℝ),
      (∀ n ∈ names, load_user_encodings st n ≠ []) →
      (names.foldl (bmStep st enc) acc).2 =
        (names.map (userDist st enc)).foldl min acc.2 := by
  intro names
  induction names with
  | nil => intro acc _; rfl
  | cons n rest ih =>
    intro acc h
    have hn := h n (List.mem_cons_self n rest)
    have hrest : ∀ m ∈ rest, load_user_encodings st m ≠ [] :=
      fun m hm => h m (List.mem_cons_of_mem _ hm)
    rw [List.foldl_cons, List.map_cons, List.foldl_cons, ih _ hrest,
      bmStep_snd st enc acc n hn]

lemma scan_fst (st : Store) (enc : Embedding) :
    ∀ (names : List String) (acc : String × ℝ) (M : ℝ),
      (∀ n ∈ names, load_user_encodings st n ≠ []) →
      M = (names.map (userDist st enc)).foldl min acc.2 →
      M < acc.2 →
      names.find? (fun n => decide (userDist st enc n = M)) =
        some (names.foldl (bmStep st enc) acc).1 := by
  intro names
  induction names with
  | nil =>
    intro acc M _ hM hlt
    rw [List.map_nil, List.foldl_nil] at hM
    exact absurd (hM ▸ hlt) (lt_irrefl _)
  | cons n rest ih =>
    intro acc M h hM hlt
    have hn := h n (List.mem_cons_self n rest)
    have hrest : ∀ m ∈ rest, load_user_encodings st m ≠ [] :=
      fun m hm => h m (List.mem_cons_of_mem _ hm)
    rw [List.map_cons, List.foldl_cons] at hM
    rw [List.foldl_cons, bmStep_of_ne st enc acc n hn]
    rcases lt_or_ge (userDist st enc n) acc.2 with hd | hd
    · -- the head strictly improves the running best
      rw [min_eq_right hd.le] at hM
      rw [if_pos hd]
      rcases lt_or_ge M (userDist st enc n) with hMd | hMd
      · -- some later user is strictly better still: the head is not the argmin
        have hne : ¬ (userDist st enc n = M) := fun hEq => absurd (hEq ▸ hMd) (lt_irrefl _)
        rw [List.find?_cons_of_neg _ (by simpa using hne)]
        exact ih (n, userDist st enc n) M hrest hM hMd
      · -- the head achieves the minimum: no later strict improvement happens
        have hMle : M ≤ userDist st enc n := hM ▸ foldl_min_le_init _ _
        have hMeq : userDist st enc n = M := le_antisymm hMd hMle
        rw [List.find?_cons_of_pos _ (by simpa using hMeq)]
        have hfix : rest.foldl (bmStep st enc) (n, userDist st enc n) = (n, userDist st enc n) := by
          apply foldl_fixed
          intro m hm
          rw [bmStep_of_ne st enc _ m (hrest m hm)]
          have : M ≤ userDist st enc m :=
            hM ▸ foldl_min_le_mem _ _ _ (List.mem_map_of_mem (userDist st enc) hm)
          rw [if_neg (not_lt.mpr (hMeq ▸ this))]
        rw [hfix]
    · -- the head does not improve the running best
      rw [min_eq_left hd] at hM
      rw [if_neg (not_lt.mpr hd)]
      have hne : ¬ (userDist st enc n = M) :=
        fun hEq => absurd (lt_of_lt_of_le hlt (hEq ▸ hd)) (lt_irrefl M)
      rw [List.find?_cons_of_neg _ (by simpa using hne)]
      exact ih acc M hrest hM hlt

lemma scan_le (st : Store) (enc : Embedding) :
    ∀ (names : List String) (acc : String × ℝ),
      (names.foldl (bmStep st enc) acc).2 ≤ acc.2 := by
  intro names
  induction names with
  | nil => intro acc; exact le_refl _
  | cons n rest ih =>
    intro acc
    refine le_trans (ih (bmStep st enc acc n)) ?_
    simp only [bmStep]
    split_ifs with h1 h2
    · exact le_refl _
    · exact le_of_lt h2
    · exact le_refl _

lemma best_match_matched_iff (st : Store) (enc : Embedding) (names : List String) (tol : ℝ) :
    (best_match st enc names tol).2.1 = true ↔ (best_match st enc names tol).2.2 ≤ tol := by
  show (if (names.foldl (bmStep st enc) ("unknown_person", (1:ℝ))).2 ≤ tol
      then true else false) = true ↔
    (names.foldl (bmStep st enc) ("unknown_person", (1:ℝ))).2 ≤ tol
  split_ifs with h <;> simp [h]

lemma best_user_matched_iff (st : Store) (enc : Embedding) (names : List String) (tol : ℝ) :
    (_best_user_for_embedding st enc names tol).2.1 = true ↔
      (_best_user_for_embedding st enc names tol).2.2 ≤ tol := by
  show (if (names.foldl (bmStep st enc) ("unknown_person", (1:ℝ))).2 ≤ tol
      then true else false) = true ↔
    (names.foldl (bmStep st enc) ("unknown_person", (1:ℝ))).2 ≤ tol
  split_ifs with h <;> simp [h]

lemma lookup_map_replace (n : String) (l : List Embedding) :
    ∀ (st : Store), (st.lookup n).isSome →
      (st.map (fun p => if p.1 = n then (n, l) else p)).lookup n = some l := by
  intro st
  induction st with
  | nil => intro h; simp [List.lookup] at h
  | cons p rest ih =>
    obtain ⟨k, v⟩ := p
    intro h
    by_cases hk : k = n
    · subst hk
      simp [List.lookup_cons]
    · have hne : (n == k) = false := beq_false_of_ne (fun hEq => hk hEq.symm)
      rw [List.lookup_cons, hne] at h
      simp only [List.map_cons, if_neg hk, List.lookup_cons, hne]
      exact ih h

lemma lookup_map_replace_other (n : String) (l : List Embedding) (m : String) (hm : m ≠ n) :
    ∀ (st : Store),
      (st.map (fun p => if p.1 = n then (n, l) else p)).lookup m = st.lookup m := by
  intro st
  induction st with
  | nil => rfl
  | cons p rest ih =>
    obtain ⟨k, v⟩ := p
    by_cases hk : k = n
    · have hne : (m == n) = false := beq_false_of_ne hm
      have hne2 : (m == k) = false := beq_false_of_ne (hk ▸ hm)
      simp only [List.map_cons, if_pos hk, List.lookup_cons, hne, hne2]
      exact ih
    · simp only [List.map_cons, if_neg hk, List.lookup_cons]
      cases hmk : (m == k) with
      | true => rfl
      | false => exact ih

lemma lookup_append_single (n : String) (l : List Embedding) :
    ∀ (st : Store), st.lookup n = none → (st ++ [(n, l)]).lookup n = some l := by
  intro st
  induction st with
  | nil => intro _; simp [List.lookup_cons]
  | cons p rest ih =>
    obtain ⟨k, v⟩ := p
    intro h
    rw [List.lookup_cons] at h
    cases hmk : (n == k) with
    | true => rw [hmk] at h; simp at h
    | false =>
      rw [hmk] at h
      rw [List.cons_append, List.lookup_cons, hmk]
      exact ih h

lemma lookup_append_single_other (n : String) (l : List Embedding) (m : String) (hm : m ≠ n) :
    ∀ (st : Store), (st ++ [(n, l)]).lookup m = st.lookup m := by
  intro st
  induction st with
  | nil =>
    have hne : (m == n) = false := beq_false_of_ne hm
    simp [List.lookup_cons, hne, List.lookup]
  | cons p rest ih =>
    obtain ⟨k, v⟩ := p
    rw [List.cons_append, List.lookup_cons, List.lookup_cons]
    cases hmk : (m == k) with
    | true => rfl
    | false => exact ih

lemma load_save_self (st : Store) (n : String) (l : List Embedding) :
    load_user_encodings (save_user_encodings st n l) n = l := by
  unfold save_user_encodings load_user_encodings
  by_cases hk : (st.lookup n).isSome
  · rw [if_pos hk, lookup_map_replace n l st hk]
  · rw [if_neg hk, lookup_append_single n l st (Option.not_isSome_iff_eq_none.mp hk)]

lemma load_save_other (st : Store) (n : String) (l : List Embedding) (m : String)
    (hm : m ≠ n) :
    load_user_encodings (save_user_encodings st n l) m = load_user_encodings st m := by
  unfold save_user_encodings load_user_encodings
  by_cases hk : (st.lookup n).isSome
  · rw [if_pos hk, lookup_map_replace_other n l m hm st]
  · rw [if_neg hk, lookup_append_single_other n l m hm st]

/-! ## Lemmas for the CSV round trip -/

lemma splitAux_not_mem (c : Char) :
    ∀ (l : List Char), c ∉ l → splitAux c l = (l, []) := by
  intro l
  induction l with
  | nil => intro _; rfl
  | cons x xs ih =>
    intro h
    simp only [List.mem_cons, not_or] at h
    obtain ⟨hx, hxs⟩ := h
    have hxc : ¬ (x = c) := fun hEq => hx hEq.symm
    simp only [splitAux, ih hxs, if_neg hxc]

lemma splitAux_append (c : Char) :
    ∀ (a rest : List Char), c ∉ a →
      splitAux c (a ++ rest) = (a ++ (splitAux c rest).1, (splitAux c rest).2) := by
  intro a
  induction a with
  | nil => intro rest _; simp
  | cons x a2 ih =>
    intro rest h
    simp only [List.mem_cons, not_or] at h
    obtain ⟨hx, ha2⟩ := h
    have hxc : ¬ (x = c) := fun hEq => hx hEq.symm
    rw [List.cons_append]
    simp only [splitAux, if_neg hxc, ih rest ha2, List.cons_append]

lemma splitOnChar_sep (c : Char) (a rest : List Char) (h : c ∉ a) :
    splitOnChar c (a ++ c :: rest) = a :: splitOnChar c rest := by
  unfold splitOnChar
  rw [splitAux_append c a (c :: rest) h]
  simp [splitAux]

lemma splitOnChar_not_mem (c : Char) (l : List Char) (h : c ∉ l) :
    splitOnChar c l = [l] := by
  unfold splitOnChar
  rw [splitAux_not_mem c l h]

lemma csvLine_data (e : LogEntry) :
    (csvLine e).data = e.ts.data ++ ',' :: (e.event.data ++ ',' :: (e.user.data ++ ',' ::
      ((if e.matched then "1" else "0").data ++ ',' :: e.extra.data))) := by
  have hcomma : ("," : String).data = [','] := rfl
  simp only [csvLine, String.data_append, hcomma, List.append_assoc, List.singleton_append,
    List.cons_append, List.nil_append]

lemma parseLine_csvLine (e : LogEntry) (h : entryOk e) :
    parseLine (csvLine e).data = some e := by
  obtain ⟨⟨hts, _⟩, ⟨hev, _⟩, ⟨hus, _⟩, ⟨hex, _⟩⟩ := h
  have hm : ',' ∉ (if e.matched then "1" else "0").data := by
    cases hmm : e.matched <;> decide
  have hsplit : splitOnChar ',' (csvLine e).data =
      [e.ts.data, e.event.data, e.user.data,
       (if e.matched then "1" else "0").data, e.extra.data] := by
    rw [csvLine_data,
      splitOnChar_sep ',' e.ts.data _ hts,
      splitOnChar_sep ',' e.event.data _ hev,
      splitOnChar_sep ',' e.user.data _ hus,
      splitOnChar_sep ',' _ _ hm,
      splitOnChar_not_mem ',' e.extra.data hex]
  obtain ⟨ts, ev, us, m, ex⟩ := e
  cases m <;> simp [parseLine, hsplit, parseMatch]

lemma newline_not_mem_csvLine (e : LogEntry) (h : entryOk e) :
    '\n' ∉ (csvLine e).data := by
  obtain ⟨⟨_, hts⟩, ⟨_, hev⟩, ⟨_, hus⟩, ⟨_, hex⟩⟩ := h
  have hm : '\n' ∉ (if e.matched then "1" else "0").data := by
    cases hmm : e.matched <;> decide
  rw [csvLine_data]
  intro hmem
  rcases List.mem_append.mp hmem with h1 | h1
  · exact hts h1
  rcases List.mem_cons.mp h1 with h2 | h2
  · exact (by decide : ('\n' : Char) ≠ ',') h2
  rcases List.mem_append.mp h2 with h3 | h3
  · exact hev h3
  rcases List.mem_cons.mp h3 with h4 | h4
  · exact (by decide : ('\n' : Char) ≠ ',') h4
  rcases List.mem_append.mp h4 with h5 | h5
  · exact hus h5
  rcases List.mem_cons.mp h5 with h6 | h6
  · exact (by decide : ('\n' : Char) ≠ ',') h6
  rcases List.mem_append.mp h6 with h7 | h7
  · exact hm h7
  rcases List.mem_cons.mp h7 with h8 | h8
  · exact (by decide : ('\n' : Char) ≠ ',') h8
  · exact hex h8

lemma csvFile_data : ∀ (log : List LogEntry) (s : String),
    (List.foldl (fun acc e => acc ++ csvLine e ++ "\n") s log).data
      = s.data ++ (log.map (fun e => (csvLine e).data ++ ['\n'])).flatten := by
  intro log
  induction log with
  | nil => intro s; simp
  | cons e rest ih =>
    intro s
    rw [List.foldl_cons, ih, List.map_cons, List.flatten_cons]
    simp [String.data_append, List.append_assoc]

lemma split_join : ∀ (log : List LogEntry), (∀ e ∈ log, entryOk e) →
    splitOnChar '\n' (log.map (fun e => (csvLine e).data ++ ['\n'])).flatten
      = (log.map (fun e => (csvLine e).data)) ++ [[]] := by
  intro log
  induction log with
  | nil => intro _; rfl
  | cons e rest ih =>
    intro h
    rw [List.map_cons, List.flatten_cons, List.append_assoc, List.singleton_append,
      splitOnChar_sep '\n' _ _ (newline_not_mem_csvLine e (h e (List.mem_cons_self e rest))),
      ih (fun x hx => h x (List.mem_cons_of_mem e hx))]
    simp

lemma parseLines_map : ∀ (log : List LogEntry), (∀ e ∈ log, entryOk e) →
    parseLines (log.map (fun e => (csvLine e).data)) = some log := by
  intro log
  induction log with
  | nil => intro _; rfl
  | cons e rest ih =>
    intro h
    rw [List.map_cons]
    simp only [parseLines, parseLine_csvLine e (h e (List.mem_cons_self e rest)),
      ih (fun x hx => h x (List.mem_cons_of_mem e hx))]

lemma searchMultipart_single (st : Store) (log : List LogEntry) (ts : String)
    (fmt3 : ℝ → String) (enc lfe : Embedding) :
    searchMultipart st log ts fmt3 [enc] lfe =
      (if list_users st = [] then
        (.found false none none "No users enrolled in the system.",
         log ++ [⟨ts, "search_fail", "unknown_person", false, "no_users_in_db"⟩])
      else if (best_match st enc (list_users st) 0.6).2.1 then
        (.found true (some (best_match st enc (list_users st) 0.6).1)
          (some (best_match st enc (list_users st) 0.6).2.2)
          ("Welcome back " ++ (best_match st enc (list_users st) 0.6).1 ++ "!"),
         log ++ [⟨ts, "search", (best_match st enc (list_users st) 0.6).1, true,
           "dist=" ++ fmt3 (best_match st enc (list_users st) 0.6).2.2⟩])
      else
        (.found false (some "unknown_person")
          (some (best_match st enc (list_users st) 0.6).2.2) "Unknown user.",
         log ++ [⟨ts, "search_fail", "unknown_person", false,
           "best=" ++ (best_match st enc (list_users st) 0.6).1 ++ ", dist=" ++
             fmt3 (best_match st enc (list_users st) 0.6).2.2⟩])) := rfl

lemma globalMinDist_cons (st : Store) (enc : Embedding) (n : String) (rest : List String) :
    globalMinDist st enc (n :: rest) =
      (rest.map (userDist st enc)).foldl min (userDist st enc n) := by
  simp [globalMinDist]

lemma foldl_one_eq_globalMin (st : Store) (enc : Embedding) (n : String) (rest : List String)
    (hmin : globalMinDist st enc (n :: rest) < 1) :
    ((n :: rest).map (userDist st enc)).foldl min 1 = globalMinDist st enc (n :: rest) := by
  rw [List.map_cons, List.foldl_cons, foldl_min_min, ← globalMinDist_cons,
    min_eq_right hmin.le]

/-! ## Claim theorems -/

/-- **C1** (amended).  Provided the global minimum distance is strictly below
the `1.0` that the running best distance is initialized to, `best_match` on a
non-empty candidate list in which every candidate has at least one stored
reference returns that global minimum together with the earliest-enumerated
identity achieving it (ties are kept by the earlier identity because the
update requires a strictly smaller distance). -/
theorem best_match_returns_global_min (st : Store) (enc : Embedding)
    (names : List String) (tol : ℝ)
    (hne : names ≠ [])
    (hrefs : ∀ n ∈ names, load_user_encodings st n ≠ [])
    (hmin : globalMinDist st enc names < 1) :
    (best_match st enc names tol).2.2 = globalMinDist st enc names ∧
    names.find? (fun n => decide (userDist st enc n = globalMinDist st enc names)) =
      some (best_match st enc names tol).1 := by
  obtain ⟨n, rest, rfl⟩ := List.exists_cons_of_ne_nil hne
  have hfold := foldl_one_eq_globalMin st enc n rest hmin
  constructor
  · show ((n :: rest).foldl (bmStep st enc) ("unknown_person", (1:ℝ))).2 = _
    rw [scan_snd st enc _ _ hrefs]
    exact hfold
  · show _ = some ((n :: rest).foldl (bmStep st enc) ("unknown_person", (1:ℝ))).1
    exact scan_fst st enc (n :: rest) ("unknown_person", (1:ℝ)) _ hrefs hfold.symm hmin

/-- **C1** counterexample to the claim as stated: with one identity `"a"`
whose only reference is at Euclidean distance `2` from the query, the true
global minimum is `2` with owner `"a"`, but `best_match` returns
`("unknown_person", 1.0)` because the running best distance starts at `1.0`. -/
theorem best_match_clamp_cex :
    best_match [("a", [[(0:ℝ)]])] [(2:ℝ)] ["a"] 0.6 = ("unknown_person", false, 1) ∧
    globalMinDist [("a", [[(0:ℝ)]])] [(2:ℝ)] ["a"] = 2 ∧ (1:ℝ) ≠ 2 := by
  have hload : load_user_encodings [("a", [[(0:ℝ)]])] "a" = [[(0:ℝ)]] := rfl
  have hd : userDist [("a", [[(0:ℝ)]])] [(2:ℝ)] "a" = 2 := by
    show npMin (face_distance (load_user_encodings [("a", [[(0:ℝ)]])] "a") [(2:ℝ)]) = 2
    rw [hload]
    show npMin [euclid [(0:ℝ)] [(2:ℝ)]] = 2
    show euclid [(0:ℝ)] [(2:ℝ)] = 2
    show Real.sqrt (((0:ℝ) - 2)^2 + 0) = 2
    rw [show ((0:ℝ) - 2)^2 + 0 = 2^2 by norm_num, Real.sqrt_sq (by norm_num : (0:ℝ) ≤ 2)]
  have hscan : (["a"].foldl (bmStep [("a", [[(0:ℝ)]])] [(2:ℝ)]) ("unknown_person", (1:ℝ)))
      = ("unknown_person", (1:ℝ)) := by
    rw [List.foldl_cons, List.foldl_nil,
      bmStep_of_ne _ _ _ _ (by rw [hload]; exact List.cons_ne_nil _ _), hd,
      if_neg (by norm_num : ¬ ((2:ℝ) < 1))]
  refine ⟨?_, ?_, by norm_num⟩
  · show ((["a"].foldl (bmStep [("a", [[(0:ℝ)]])] [(2:ℝ)]) ("unknown_person", (1:ℝ))).1,
      if (["a"].foldl (bmStep [("a", [[(0:ℝ)]])] [(2:ℝ)]) ("unknown_person", (1:ℝ))).2 ≤ (0.6:ℝ)
        then true else false,
      (["a"].foldl (bmStep [("a", [[(0:ℝ)]])] [(2:ℝ)]) ("unknown_person", (1:ℝ))).2)
      = ("unknown_person", false, 1)
    rw [hscan]
    norm_num
  · rw [globalMinDist_cons, List.map_nil, List.foldl_nil, hd]

/-- **C1** witness: a store with a single identity `"a"` at distance `0` from
the query; the amended theorem applies and yields distance `0` owned by `"a"`. -/
theorem best_match_returns_global_min_witness :
    (best_match [("a", [[(0:ℝ)]])] [(0:ℝ)] ["a"] 0.6).2.2 =
      globalMinDist [("a", [[(0:ℝ)]])] [(0:ℝ)] ["a"] ∧
    (["a"].find? (fun n => decide (userDist [("a", [[(0:ℝ)]])] [(0:ℝ)] n =
        globalMinDist [("a", [[(0:ℝ)]])] [(0:ℝ)] ["a"]))) =
      some (best_match [("a", [[(0:ℝ)]])] [(0:ℝ)] ["a"] 0.6).1 :=
  best_match_returns_global_min [("a", [[(0:ℝ)]])] [(0:ℝ)] ["a"] 0.6
    (List.cons_ne_nil _ _)
    (by
      intro n hn
      rcases List.mem_singleton.mp hn with rfl
      show ([[(0:ℝ)]] : List Embedding) ≠ []
      exact List.cons_ne_nil _ _)
    (by
      rw [globalMinDist_cons, List.map_nil, List.foldl_nil]
      show npMin (face_distance (load_user_encodings [("a", [[(0:ℝ)]])] "a") [(0:ℝ)]) < 1
      show npMin [euclid [(0:ℝ)] [(0:ℝ)]] < 1
      show euclid [(0:ℝ)] [(0:ℝ)] < 1
      show Real.sqrt (((0:ℝ) - 0)^2 + 0) < 1
      rw [show ((0:ℝ) - 0)^2 + 0 = 0 by norm_num, Real.sqrt_zero]
      norm_num)

/-- **C2**.  For every store state, query embedding, candidate list and
tolerance, both matching functions decide `matched = (best_distance ≤
tolerance)` on the (possibly capped) distance they return: a best distance
exactly equal to the tolerance gives `matched = true`, a strictly greater one
gives `matched = false`. -/
theorem decision_rule (st : Store) (enc : Embedding) (names : List String) (tol : ℝ) :
    ((best_match st enc names tol).2.1 = true ↔ (best_match st enc names tol).2.2 ≤ tol) ∧
    ((_best_user_for_embedding st enc names tol).2.1 = true ↔
      (_best_user_for_embedding st enc names tol).2.2 ≤ tol) :=
  ⟨best_match_matched_iff st enc names tol, best_user_matched_iff st enc names tol⟩

/-- **C9**.  The match computation is a deterministic function of the store
observations and the query: two stores with the same user list and the same
stored encodings for every name produce identical `(identity, matched,
distance)` results in `best_match`, `_best_user_for_embedding`, and the JSON
mode of `/search` (there is no hidden randomness). -/
theorem match_deterministic (st1 st2 : Store) (enc : Embedding) (names : List String)
    (tol : ℝ) (log : List LogEntry) (ts : String) (fmt3 : ℝ → String)
    (e : List ℝ) (t? : Option ℝ)
    (hload : ∀ n, load_user_encodings st1 n = load_user_encodings st2 n)
    (husers : list_users st1 = list_users st2) :
    best_match st1 enc names tol = best_match st2 enc names tol ∧
    _best_user_for_embedding st1 enc names tol = _best_user_for_embedding st2 enc names tol ∧
    searchJson st1 log ts fmt3 e t? = searchJson st2 log ts fmt3 e t? := by
  have hstep : ∀ q : Embedding, bmStep st1 q = bmStep st2 q := by
    intro q; funext acc n; simp [bmStep, hload]
  have hbu : _best_user_for_embedding st1 = _best_user_for_embedding st2 := by
    funext q ns t
    simp [_best_user_for_embedding, hstep]
  refine ⟨?_, by rw [hbu], ?_⟩
  · simp [best_match, hstep]
  · simp [searchJson, husers, hbu]

/-- **C9** witness: identical stores trivially satisfy the observation
hypotheses, and the results coincide. -/
theorem match_deterministic_witness :
    best_match [("a", [[(0:ℝ)]])] [] [] 0 = best_match [("a", [[(0:ℝ)]])] [] [] 0 ∧
    _best_user_for_embedding [("a", [[(0:ℝ)]])] [] [] 0 =
      _best_user_for_embedding [("a", [[(0:ℝ)]])] [] [] 0 ∧
    searchJson [("a", [[(0:ℝ)]])] [] "t" (fun _ => "") [] none =
      searchJson [("a", [[(0:ℝ)]])] [] "t" (fun _ => "") [] none :=
  match_deterministic [("a", [[(0:ℝ)]])] [("a", [[(0:ℝ)]])] [] [] 0 [] "t" (fun _ => "")
    [] none (fun _ => rfl) rfl

/-- **C10**.  The distance returned by `best_match` never exceeds `1.0`
(the running best is initialized to `1.0`, not infinity); whenever every
candidate either has no stored references or has all its references farther
than `1.0` from the query, the result is `("unknown_person", 1.0)` with
`matched = (1.0 ≤ tolerance)`; concretely, a `/search` JSON call with
tolerance `1` against a store whose only identity has an empty reference list
reports `match = true` for the sentinel `"unknown_person"`. -/
theorem best_match_distance_capped (st : Store) (enc : Embedding) (names : List String)
    (tol : ℝ) :
    (best_match st enc names tol).2.2 ≤ 1 ∧
    ((∀ n ∈ names, load_user_encodings st n = [] ∨ 1 < userDist st enc n) →
      best_match st enc names tol =
        ("unknown_person", if (1:ℝ) ≤ tol then true else false, 1)) ∧
    (searchJson [("a", [])] [] "t" (fun _ => "") (List.replicate 128 (0:ℝ)) (some 1) =
      (.found true (some "unknown_person") (some 1) "Welcome back unknown_person!",
       [⟨"t", "search", "unknown_person", true, "dist="⟩])) := by
  refine ⟨scan_le st enc names _, ?_, ?_⟩
  · intro h
    have hfix : names.foldl (bmStep st enc) ("unknown_person", (1:ℝ))
        = ("unknown_person", (1:ℝ)) := by
      apply foldl_fixed
      intro n hn
      by_cases hl : load_user_encodings st n = []
      · simp [bmStep, hl]
      · have hgt : 1 < userDist st enc n := (h n hn).resolve_left hl
        rw [bmStep_of_ne st enc _ n hl]
        exact if_neg (not_lt.mpr hgt.le)
    show ((names.foldl (bmStep st enc) ("unknown_person", (1:ℝ))).1,
        if (names.foldl (bmStep st enc) ("unknown_person", (1:ℝ))).2 ≤ tol
          then true else false,
        (names.foldl (bmStep st enc) ("unknown_person", (1:ℝ))).2) = _
    rw [hfix]
  · have hr : _best_user_for_embedding [("a", [])] (List.replicate 128 (0:ℝ)) ["a"] 1
        = ("unknown_person", true, 1) := by
      show (("unknown_person" : String),
        if (1:ℝ) ≤ 1 then true else false, (1:ℝ)) = ("unknown_person", true, 1)
      rw [if_pos (le_refl (1:ℝ))]
    simp only [searchJson, List.length_replicate, Option.getD_some]
    rw [if_neg (by norm_num : ¬ ((128:ℕ) = 0 ∨ (128:ℕ) ≠ 128))]
    rw [show list_users [("a", ([] : List Embedding))] = ["a"] from rfl]
    rw [if_neg (by simp : ¬ (["a"] : List String) = [])]
    rw [hr]
    rfl

/-- **C10** witness: a store whose only identity `"a"` has an empty reference
list satisfies the hypothesis, so both the cap and the sentinel result hold. -/
theorem best_match_distance_capped_witness :
    (load_user_encodings [("a", ([] : List Embedding))] "a" = []) ∧
    (best_match [("a", ([] : List Embedding))] [] ["a"] 0).2.2 ≤ 1 ∧
    best_match [("a", ([] : List Embedding))] [] ["a"] 0 =
      ("unknown_person", if (1:ℝ) ≤ 0 then true else false, 1) :=
  ⟨rfl,
   (best_match_distance_capped [("a", ([] : List Embedding))] [] ["a"] 0).1,
   (best_match_distance_capped [("a", ([] : List Embedding))] [] ["a"] 0).2.1
     (fun n hn => Or.inl (by rcases List.mem_singleton.mp hn with rfl; rfl))⟩

/-- **C6**.  A successful enroll call (non-empty stripped name, exactly one
face encoding) appends the new encoding to the identity's record — its stored
sample count grows by exactly one, creating the record when absent — leaves
every other identity's record (hence its count) unchanged, and reports the
new total sample count in its response message. -/
theorem enroll_monotone (st : Store) (log : List LogEntry) (ts : String)
    (userName : String) (enc : Embedding) (fullName : Option String)
    (h : pyStrip userName ≠ "") :
    (load_user_encodings (enroll st log ts userName [enc] fullName).2.1
        (pyStrip userName)).length
      = (load_user_encodings st (pyStrip userName)).length + 1 ∧
    (∀ m, m ≠ pyStrip userName →
      load_user_encodings (enroll st log ts userName [enc] fullName).2.1 m
        = load_user_encodings st m) ∧
    (enroll st log ts userName [enc] fullName).1 =
      .ok (pyStrip userName) (fullName.getD (pyStrip userName))
        ("Registered/updated " ++ pyStrip userName ++ ". Total samples: "
          ++ toString ((load_user_encodings st (pyStrip userName)).length + 1) ++ ".") := by
  have hen : enroll st log ts userName [enc] fullName =
      (.ok (pyStrip userName) (fullName.getD (pyStrip userName))
        ("Registered/updated " ++ pyStrip userName ++ ". Total samples: "
          ++ toString (load_user_encodings st (pyStrip userName) ++ [enc]).length ++ "."),
       save_user_encodings st (pyStrip userName)
         (load_user_encodings st (pyStrip userName) ++ [enc]),
       log ++ [⟨ts, "enroll", pyStrip userName, true,
         "encodings=" ++ toString (load_user_encodings st (pyStrip userName) ++ [enc]).length⟩]) := by
    simp only [enroll, if_neg h]
  have hlen : (load_user_encodings st (pyStrip userName) ++ [enc]).length
      = (load_user_encodings st (pyStrip userName)).length + 1 := by
    simp
  refine ⟨?_, ?_, ?_⟩
  · rw [hen]
    show (load_user_encodings (save_user_encodings st (pyStrip userName)
      (load_user_encodings st (pyStrip userName) ++ [enc])) (pyStrip userName)).length = _
    rw [load_save_self, hlen]
  · intro m hm
    rw [hen]
    exact load_save_other st (pyStrip userName) _ m hm
  · rw [hen, hlen]

/-- **C6** witness: enrolling `"a"` into the empty store creates the record
with exactly one sample. -/
theorem enroll_monotone_witness :
    pyStrip "a" ≠ "" ∧
    (load_user_encodings (enroll [] [] "t" "a" [[(0:ℝ)]] none).2.1 (pyStrip "a")).length
      = (load_user_encodings [] (pyStrip "a")).length + 1 :=
  ⟨by decide, (enroll_monotone [] [] "t" "a" [(0:ℝ)] none (by decide)).1⟩

/-- **C3** (amended).  A verification call against a store with zero
identities returns a successful (non-error) result with `match = false` and a
`null` distance, but its `patient` field is `None` (null), not the sentinel
`"unknown_person"` — the sentinel appears only in the audit entry
(`search_fail`/`unknown_person`/`no_users_in_db`), which both request modes
append. -/
theorem empty_store_search (st : Store) (log : List LogEntry) (ts : String)
    (fmt3 : ℝ → String) (e : List ℝ) (t? : Option ℝ) (enc lfe : Embedding)
    (hu : list_users st = []) :
    (e.length = 128 → searchJson st log ts fmt3 e t? =
      (.found false none none "No users enrolled in the system.",
       log ++ [⟨ts, "search_fail", "unknown_person", false, "no_users_in_db"⟩])) ∧
    searchMultipart st log ts fmt3 [enc] lfe =
      (.found false none none "No users enrolled in the system.",
       log ++ [⟨ts, "search_fail", "unknown_person", false, "no_users_in_db"⟩]) := by
  constructor
  · intro he
    simp only [searchJson, he, hu]
    rw [if_neg (by norm_num : ¬ ((128:ℕ) = 0 ∨ (128:ℕ) ≠ 128))]
    simp
  · simp only [searchMultipart, hu]
    simp

/-- **C3** counterexample to the claim as stated: on the empty store the JSON
verification response carries `patient = None` (a null identity), not the
sentinel `some "unknown_person"` the claim requires. -/
theorem empty_store_sentinel_cex :
    (searchJson [] [] "t" (fun _ => "") (List.replicate 128 (0:ℝ)) none).1 =
      .found false none none "No users enrolled in the system." ∧
    (none : Option String) ≠ some "unknown_person" := by
  constructor
  · simp only [searchJson, List.length_replicate]
    rw [if_neg (by norm_num : ¬ ((128:ℕ) = 0 ∨ (128:ℕ) ≠ 128))]
    simp [list_users]
  · simp

/-- **C3** witness: the empty store satisfies the hypothesis; both modes
return the successful unmatched response and append the sentinel audit
entry. -/
theorem empty_store_search_witness :
    (List.replicate 128 (0:ℝ)).length = 128 ∧
    searchJson [] [] "t" (fun _ => "") (List.replicate 128 (0:ℝ)) none =
      (.found false none none "No users enrolled in the system.",
       [⟨"t", "search_fail", "unknown_person", false, "no_users_in_db"⟩]) ∧
    searchMultipart [] [] "t" (fun _ => "") [[(0:ℝ)]] [] =
      (.found false none none "No users enrolled in the system.",
       [⟨"t", "search_fail", "unknown_person", false, "no_users_in_db"⟩]) := by
  have h := empty_store_search [] [] "t" (fun _ => "") (List.replicate 128 (0:ℝ)) none
    [(0:ℝ)] [] rfl
  exact ⟨by simp, by simpa using h.1 (by simp), by simpa using h.2⟩

/-- **C4** (amended).  An enroll call whose stripped user name is empty is
rejected *without* appending any audit entry and without mutating the store;
every enroll call with a non-empty stripped name appends exactly one entry
(enroll, or enroll_fail for zero/multiple faces); a JSON verify call with a
valid 128-float embedding appends exactly one entry, while an invalid
embedding is rejected with no entry; a multipart verify call (past decoding)
always appends exactly one entry. -/
theorem audit_one_entry (st : Store) (log : List LogEntry) (ts : String)
    (userName : String) (encs : List Embedding) (fullName : Option String)
    (fmt3 : ℝ → String) (e : List ℝ) (t? : Option ℝ)
    (mencs : List Embedding) (lfe : Embedding) :
    (pyStrip userName = "" →
      enroll st log ts userName encs fullName = (.badRequest "Username is empty.", st, log)) ∧
    (pyStrip userName ≠ "" →
      ((enroll st log ts userName encs fullName).2.2).length = log.length + 1) ∧
    (e.length = 128 →
      ((searchJson st log ts fmt3 e t?).2).length = log.length + 1) ∧
    (e.length ≠ 128 → (searchJson st log ts fmt3 e t?).2 = log) ∧
    ((searchMultipart st log ts fmt3 mencs lfe).2).length = log.length + 1 := by
  refine ⟨?_, ?_, ?_, ?_, ?_⟩
  · intro h
    simp [enroll, h]
  · intro h
    rcases encs with _ | ⟨e1, _ | ⟨e2, er⟩⟩ <;> simp [enroll, h]
  · intro he
    simp only [searchJson, he]
    rw [if_neg (by norm_num : ¬ ((128:ℕ) = 0 ∨ (128:ℕ) ≠ 128))]
    split_ifs <;> simp
  · intro hne
    simp only [searchJson]
    rw [if_pos (Or.inr hne)]
  · rcases mencs with _ | ⟨m1, mr⟩
    · simp [searchMultipart]
    · simp only [searchMultipart]
      split_ifs <;> simp

/-- **C4** counterexample to the claim as stated: an enroll call with a
whitespace-only user name is rejected as invalid input and appends zero audit
entries — not the enroll_fail entry the claim requires. -/
theorem audit_one_entry_cex :
    enroll [] [] "t" " " [[]] none = (.badRequest "Username is empty.", [], []) ∧
    ((enroll [] [] "t" " " [[]] none).2.2).length ≠ ([] : List LogEntry).length + 1 := by
  constructor
  · rfl
  · decide

/-- **C4** witness: concrete calls hitting each conjunct — a stripped-empty
name appends nothing, a successful enroll and an empty-store JSON verify each
append exactly one entry. -/
theorem audit_one_entry_witness :
    pyStrip " " = "" ∧
    enroll [] [] "t" " " [[]] none = (.badRequest "Username is empty.", [], []) ∧
    pyStrip "a" ≠ "" ∧
    ((enroll [] [] "t" "a" [[]] none).2.2).length = ([] : List LogEntry).length + 1 ∧
    (List.replicate 128 (0:ℝ)).length = 128 ∧
    ((searchJson [] [] "t" (fun _ => "") (List.replicate 128 (0:ℝ)) none).2).length
      = ([] : List LogEntry).length + 1 :=
  ⟨by decide,
   (audit_one_entry [] [] "t" " " [[]] none (fun _ => "") [] none [] []).1 (by decide),
   by decide,
   (audit_one_entry [] [] "t" "a" [[]] none (fun _ => "") [] none [] []).2.1 (by decide),
   by simp,
   (audit_one_entry [] [] "t" "a" [[]] none (fun _ => "")
     (List.replicate 128 (0:ℝ)) none [] []).2.2.1 (by simp)⟩

/-- **C5** (amended).  Every audit entry appended by the enroll and search
operations has an event kind in `{enroll, enroll_fail, search, search_fail}`
— the verification events are named `search`/`search_fail`, not the
`verify`/`verify_fail` the spec's table format declares. -/
theorem audit_event_kinds (st : Store) (log : List LogEntry) (ts : String)
    (userName : String) (encs : List Embedding) (fullName : Option String)
    (fmt3 : ℝ → String) (e : List ℝ) (t? : Option ℝ)
    (mencs : List Embedding) (lfe : Embedding) :
    (∀ en ∈ (enroll st log ts userName encs fullName).2.2, en ∈ log ∨
      en.event ∈ (["enroll", "enroll_fail", "search", "search_fail"] : List String)) ∧
    (∀ en ∈ (searchJson st log ts fmt3 e t?).2, en ∈ log ∨
      en.event ∈ (["enroll", "enroll_fail", "search", "search_fail"] : List String)) ∧
    (∀ en ∈ (searchMultipart st log ts fmt3 mencs lfe).2, en ∈ log ∨
      en.event ∈ (["enroll", "enroll_fail", "search", "search_fail"] : List String)) := by
  have key : ∀ (x en : LogEntry),
      x.event ∈ (["enroll", "enroll_fail", "search", "search_fail"] : List String) →
      en ∈ log ++ [x] →
      en ∈ log ∨ en.event ∈ (["enroll", "enroll_fail", "search", "search_fail"] : List String) := by
    intro x en hx hen
    rcases List.mem_append.mp hen with hl | hr
    · exact Or.inl hl
    · rcases List.mem_singleton.mp hr with rfl; exact Or.inr hx
  refine ⟨?_, ?_, ?_⟩
  · by_cases h : pyStrip userName = ""
    · simp only [enroll, if_pos h]
      exact fun en hl => Or.inl hl
    · rcases encs with _ | ⟨e1, _ | ⟨e2, er⟩⟩ <;>
        simp only [enroll, if_neg h] <;>
        exact fun en hen => key _ en (by simp) hen
  · simp only [searchJson]
    split_ifs <;> intro en hen <;>
      first
        | exact Or.inl hen
        | exact key _ en (by simp) hen
  · rcases mencs with _ | ⟨m1, mr⟩
    · exact fun en hen => key _ en (by simp) hen
    · simp only [searchMultipart]
      split_ifs <;> intro en hen <;>
        first
          | exact Or.inl hen
          | exact key _ en (by simp) hen

/-- **C5** counterexample to the claim as stated: an empty-store verification
appends an entry whose event kind is `"search_fail"`, which is not in the
claimed set `{enroll, enroll_fail, verify, verify_fail}`. -/
theorem audit_event_kinds_cex :
    (searchJson [] [] "t" (fun _ => "") (List.replicate 128 (0:ℝ)) none).2 =
      [⟨"t", "search_fail", "unknown_person", false, "no_users_in_db"⟩] ∧
    ("search_fail" : String) ∉
      (["enroll", "enroll_fail", "verify", "verify_fail"] : List String) := by
  constructor
  · simp only [searchJson, List.length_replicate]
    rw [if_neg (by norm_num : ¬ ((128:ℕ) = 0 ∨ (128:ℕ) ≠ 128))]
    simp [list_users]
  · decide

/-- **C5** witness: the entry appended by a concrete empty-store verification
is in the allowed event set. -/
theorem audit_event_kinds_witness :
    (⟨"t", "search_fail", "unknown_person", false, "no_users_in_db"⟩ : LogEntry) ∈
      (searchJson [] [] "t" (fun _ => "") (List.replicate 128 (0:ℝ)) none).2 ∧
    ((⟨"t", "search_fail", "unknown_person", false, "no_users_in_db"⟩ : LogEntry) ∈
        ([] : List LogEntry) ∨
      LogEntry.event ⟨"t", "search_fail", "unknown_person", false, "no_users_in_db"⟩ ∈
        (["enroll", "enroll_fail", "search", "search_fail"] : List String)) := by
  have hmem : (⟨"t", "search_fail", "unknown_person", false, "no_users_in_db"⟩ : LogEntry) ∈
      (searchJson [] [] "t" (fun _ => "") (List.replicate 128 (0:ℝ)) none).2 := by
    simp only [searchJson, List.length_replicate]
    rw [if_neg (by norm_num : ¬ ((128:ℕ) = 0 ∨ (128:ℕ) ≠ 128))]
    simp [list_users]
  exact ⟨hmem, (audit_event_kinds [] [] "t" "a" [] none (fun _ => "")
    (List.replicate 128 (0:ℝ)) none [] []).2.1 _ hmem⟩

/-- **C7** (amended).  In the JSON mode of `/search` the tolerance defaults
to `0.6` (a missing threshold behaves exactly like a supplied `0.6`) and the
caller-supplied threshold `t` is the one used in the
`matched = (best_distance ≤ tolerance)` decision; the multipart mode,
however, always decides with the hard-coded `0.6` (it accepts no caller
threshold at all). -/
theorem tolerance_configurable (st : Store) (log : List LogEntry) (ts : String)
    (fmt3 : ℝ → String) (e : List ℝ) (t : ℝ) (enc lfe : Embedding)
    (he : e.length = 128) (hu : ¬ list_users st = []) :
    (searchJson st log ts fmt3 e none = searchJson st log ts fmt3 e (some 0.6)) ∧
    ((searchJson st log ts fmt3 e (some t)).1.isMatch = true ↔
      (_best_user_for_embedding st e (list_users st) t).2.2 ≤ t) ∧
    ((searchMultipart st log ts fmt3 [enc] lfe).1.isMatch = true ↔
      (best_match st enc (list_users st) 0.6).2.2 ≤ 0.6) := by
  have hcond : ¬ (e.length = 0 ∨ e.length ≠ 128) := by rw [he]; norm_num
  refine ⟨rfl, ?_, ?_⟩
  · have hiff := best_user_matched_iff st e (list_users st) t
    simp only [searchJson, Option.getD_some]
    rw [if_neg hcond, if_neg hu]
    split_ifs with hb
    · simp only [SearchOut.isMatch]
      exact ⟨fun _ => hiff.mp hb, fun _ => by trivial⟩
    · simp only [SearchOut.isMatch]
      constructor
      · intro hfalse; exact absurd hfalse (by simp)
      · intro hle; exact absurd (hiff.mpr hle) hb
  · have hiff := best_match_matched_iff st enc (list_users st) 0.6
    rw [searchMultipart_single, if_neg hu]
    cases hb : (best_match st enc (list_users st) 0.6).2.1 with
    | true =>
      rw [if_pos (rfl : (true : Bool) = true)]
      simp only [SearchOut.isMatch]
      exact ⟨fun _ => hiff.mp hb, fun _ => by trivial⟩
    | false =>
      rw [if_neg (by simp : ¬ ((false : Bool) = true))]
      simp only [SearchOut.isMatch]
      constructor
      · intro hfalse; exact absurd hfalse (by simp)
      · intro hle
        have := hiff.mpr hle
        rw [hb] at this
        exact absurd this (by simp)

/-- **C7** counterexample to the claim as stated: in multipart mode the
caller cannot supply a threshold and the decision ignores any intended
tolerance — with a best distance of `0.8` the response says `match = false`
even though `0.8 ≤ 2` for a caller wanting tolerance `2`, because the call
hard-codes `0.6`. -/
theorem multipart_fixed_tolerance_cex :
    (searchMultipart [("a", [[(0:ℝ)]])] [] "t" (fun _ => "") [[(4/5:ℝ)]] []).1 =
      .found false (some "unknown_person") (some (4/5)) "Unknown user." ∧
    (4:ℝ)/5 ≤ 2 := by
  have hload : load_user_encodings [("a", [[(0:ℝ)]])] "a" = [[(0:ℝ)]] := rfl
  have hd : userDist [("a", [[(0:ℝ)]])] [(4/5:ℝ)] "a" = 4/5 := by
    show npMin (face_distance (load_user_encodings [("a", [[(0:ℝ)]])] "a") [(4/5:ℝ)]) = 4/5
    rw [hload]
    show npMin [euclid [(0:ℝ)] [(4/5:ℝ)]] = 4/5
    show euclid [(0:ℝ)] [(4/5:ℝ)] = 4/5
    show Real.sqrt (((0:ℝ) - 4/5)^2 + 0) = 4/5
    rw [show ((0:ℝ) - 4/5)^2 + 0 = ((4:ℝ)/5)^2 by norm_num,
      Real.sqrt_sq (by norm_num : (0:ℝ) ≤ 4/5)]
  have hbm : best_match [("a", [[(0:ℝ)]])] [(4/5:ℝ)] ["a"] 0.6 = ("a", false, 4/5) := by
    have hscan : (["a"].foldl (bmStep [("a", [[(0:ℝ)]])] [(4/5:ℝ)]) ("unknown_person", (1:ℝ)))
        = ("a", (4:ℝ)/5) := by
      rw [List.foldl_cons, List.foldl_nil,
        bmStep_of_ne _ _ _ _ (by rw [hload]; exact List.cons_ne_nil _ _), hd,
        if_pos (by norm_num : (4:ℝ)/5 < 1)]
    show ((["a"].foldl (bmStep [("a", [[(0:ℝ)]])] [(4/5:ℝ)]) ("unknown_person", (1:ℝ))).1,
      if (["a"].foldl (bmStep [("a", [[(0:ℝ)]])] [(4/5:ℝ)]) ("unknown_person", (1:ℝ))).2 ≤ (0.6:ℝ)
        then true else false,
      (["a"].foldl (bmStep [("a", [[(0:ℝ)]])] [(4/5:ℝ)]) ("unknown_person", (1:ℝ))).2)
      = ("a", false, 4/5)
    rw [hscan, if_neg (by norm_num : ¬ ((4:ℝ)/5 ≤ 0.6))]
  constructor
  · rw [searchMultipart_single]
    rw [show list_users [("a", [[(0:ℝ)]])] = ["a"] from rfl]
    rw [if_neg (by simp : ¬ (["a"] : List String) = []), hbm]
    rfl
  · norm_num

/-- **C7** witness: a one-identity store and a valid 128-float embedding —
the default coincides with supplying `0.6`, the JSON decision uses the
caller's threshold `2`, and the multipart decision uses `0.6`. -/
theorem tolerance_configurable_witness :
    (List.replicate 128 (0:ℝ)).length = 128 ∧
    ¬ list_users [("a", [[(0:ℝ)]])] = [] ∧
    (searchJson [("a", [[(0:ℝ)]])] [] "t" (fun _ => "") (List.replicate 128 (0:ℝ)) none =
      searchJson [("a", [[(0:ℝ)]])] [] "t" (fun _ => "") (List.replicate 128 (0:ℝ)) (some 0.6)) ∧
    ((searchJson [("a", [[(0:ℝ)]])] [] "t" (fun _ => "")
        (List.replicate 128 (0:ℝ)) (some 2)).1.isMatch = true ↔
      (_best_user_for_embedding [("a", [[(0:ℝ)]])] (List.replicate 128 (0:ℝ))
        (list_users [("a", [[(0:ℝ)]])]) 2).2.2 ≤ 2) ∧
    ((searchMultipart [("a", [[(0:ℝ)]])] [] "t" (fun _ => "") [[(0:ℝ)]] []).1.isMatch = true ↔
      (best_match [("a", [[(0:ℝ)]])] [(0:ℝ)] (list_users [("a", [[(0:ℝ)]])]) 0.6).2.2 ≤ 0.6) := by
  have h := tolerance_configurable [("a", [[(0:ℝ)]])] [] "t" (fun _ => "")
    (List.replicate 128 (0:ℝ)) 2 [(0:ℝ)] [] (by simp) (by simp [list_users])
  have h6 := tolerance_configurable [("a", [[(0:ℝ)]])] [] "t" (fun _ => "")
    (List.replicate 128 (0:ℝ)) 2 [(0:ℝ)] [] (by simp) (by simp [list_users])
  exact ⟨by simp, by simp [list_users], h.1, h.2.1, h6.2.2⟩

/-- **C8** (amended).  Exporting the audit log and re-parsing the returned
comma-separated table yields exactly the appended entry sequence *provided*
every entry's fields contain no comma and no newline.  `save_log` performs no
sanitization or escaping, so this precondition is not enforced — and the
verification-failure details the code itself writes (`best=..., dist=...`)
contain a comma, breaking the round trip for them. -/
theorem csv_round_trip (log : List LogEntry) (h : ∀ e ∈ log, entryOk e) :
    parseCsv (csvFile log) = some log := by
  have hrows : splitOnChar '\n' (csvFile log).data =
      csvHeader.data :: ((log.map (fun e => (csvLine e).data)) ++ [[]]) := by
    have hd : (csvFile log).data = csvHeader.data ++ '\n' ::
        (log.map (fun e => (csvLine e).data ++ ['\n'])).flatten := by
      show (List.foldl (fun acc e => acc ++ csvLine e ++ "\n") (csvHeader ++ "\n") log).data = _
      rw [csvFile_data log (csvHeader ++ "\n"), String.data_append,
        show ("\n" : String).data = ['\n'] from rfl, List.append_assoc, List.singleton_append]
    rw [hd, splitOnChar_sep '\n' csvHeader.data _ (by decide), split_join log h]
  simp only [parseCsv, hrows]
  rw [if_pos ⟨rfl, by rw [← List.cons_append]; exact List.getLast?_concat _⟩]
  rw [show (csvHeader.data :: ((log.map (fun e => (csvLine e).data)) ++ [[]])).drop 1
      = (log.map (fun e => (csvLine e).data)) ++ [[]] from rfl,
    List.dropLast_concat]
  exact parseLines_map log h

/-- **C8** counterexample to the claim as stated: the detail string the code
itself writes on a verification failure contains an unescaped comma
(`best=a, dist=0.800`), so re-parsing the exported table does not return the
appended entry sequence. -/
theorem csv_round_trip_cex :
    parseCsv (csvFile [⟨"2024-01-01 00:00:00", "search_fail", "unknown_person", false,
        "best=a, dist=0.800"⟩]) ≠
      some [⟨"2024-01-01 00:00:00", "search_fail", "unknown_person", false,
        "best=a, dist=0.800"⟩] := by
  decide

/-- **C8** witness: a log whose fields are comma- and newline-free
round-trips exactly. -/
theorem csv_round_trip_witness :
    entryOk ⟨"2024-01-01 00:00:00", "enroll", "alice", true, "encodings=1"⟩ ∧
    parseCsv (csvFile [⟨"2024-01-01 00:00:00", "enroll", "alice", true, "encodings=1"⟩]) =
      some [⟨"2024-01-01 00:00:00", "enroll", "alice", true, "encodings=1"⟩] :=
  ⟨by decide,
   csv_round_trip _ (by
     intro e he
     rcases List.mem_singleton.mp he with rfl
     decide)⟩

end FaceAttendance
